import Mathlib

/-!
Verification of the SmartModbus master-side request-optimization and framing
library. The definitions below are a shallow embedding of the C sources:
machine integers are modelled as `Nat` (with explicit `% 2^16` / `% 2^32`
where the C truncates), byte buffers as `List Nat`, and fallible functions
return `Except MbError`.
-/

set_option maxRecDepth 4000

/-- Error codes, from mb_error.h / master_api.c. -/
inductive MbError where
  | invalidParam
  | bufferTooSmall
  | timeout
  | crcMismatch
  | lrcMismatch
  | invalidFrame
  | exceptionResponse
  | transport
  | outOfMemory
  | notSupported
  | invalidFc
  | invalidAddress
  | invalidQuantity
  | noBlocks
  | tooManyBlocks
  | pduTooLarge
  | tooManyPlans
  | noMemory
  deriving DecidableEq, Repr

instance {ε α : Type} [DecidableEq ε] [DecidableEq α] : DecidableEq (Except ε α) := fun a b =>
  match a, b with
  | .ok x, .ok y =>
    if h : x = y then isTrue (by rw [h]) else isFalse (fun hc => h (Except.ok.inj hc))
  | .error x, .error y =>
    if h : x = y then isTrue (by rw [h]) else isFalse (fun hc => h (Except.error.inj hc))
  | .ok _, .error _ => isFalse (fun hc => Except.noConfusion hc)
  | .error _, .ok _ => isFalse (fun hc => Except.noConfusion hc)

/-- Protocol mode, from mb_types.h (mb_mode_t). -/
inductive MbMode where
  | rtu
  | ascii
  | tcp
  deriving DecidableEq, Repr

/-- A contiguous address range for one slave and function code (mb_block_t).
Fields are uint8/uint16 in C; modelled as Nat. -/
structure Block where
  slave_id : Nat
  function_code : Nat
  start_address : Nat
  quantity : Nat
  is_merged : Bool
  deriving DecidableEq, Repr

/-- Cost parameters (mb_cost_params_t), all uint8 in C. -/
structure CostParams where
  req_fixed_chars : Nat
  resp_fixed_chars : Nat
  gap_chars : Nat
  latency_chars : Nat
  deriving DecidableEq, Repr

/-- Function-code policy entry (mb_fc_policy_t). -/
structure FcPolicy where
  fc : Nat
  supports_merge : Bool
  is_read : Bool
  req_fixed_chars : Nat
  resp_fixed_chars : Nat
  extra_unit_chars : Nat
  max_quantity : Nat
  deriving DecidableEq, Repr

/-- PDU bin produced by the FFD packer (mb_pdu_t). -/
structure Pdu where
  slave_id : Nat
  function_code : Nat
  start_address : Nat
  quantity : Nat
  total_chars : Nat
  deriving DecidableEq, Repr

/-- The static policy table from fc_policy.c. -/
def fc_policy_table : List FcPolicy :=
  [ ⟨0x01, true,  true,  6, 5, 12,  2000⟩,
    ⟨0x02, true,  true,  6, 5, 12,  2000⟩,
    ⟨0x03, true,  true,  6, 5, 200, 125⟩,
    ⟨0x04, true,  true,  6, 5, 200, 125⟩,
    ⟨0x05, false, false, 6, 6, 0,   1⟩,
    ⟨0x06, false, false, 6, 6, 0,   1⟩,
    ⟨0x0F, false, false, 7, 6, 0,   1968⟩,
    ⟨0x10, false, false, 7, 6, 0,   123⟩,
    ⟨0x16, false, false, 8, 8, 0,   1⟩,
    ⟨0x17, false, true,  11, 5, 0,  121⟩ ]

/-- mb_fc_get_policy: linear lookup in the policy table. -/
def mb_fc_get_policy (fc : Nat) : Option FcPolicy :=
  fc_policy_table.find? (fun p => p.fc == fc)

/-- mb_fc_supports_merge from fc_policy.c. -/
def mb_fc_supports_merge (fc : Nat) : Bool :=
  match mb_fc_get_policy fc with
  | some p => p.supports_merge
  | none => false

/-- mb_fc_get_unit_size from fc_policy.c: 1 = bit-based, 2 = register-based,
0 = unsupported. -/
def mb_fc_get_unit_size (fc : Nat) : Nat :=
  if fc = 0x01 ∨ fc = 0x02 ∨ fc = 0x05 ∨ fc = 0x0F then 1
  else if fc = 0x03 ∨ fc = 0x04 ∨ fc = 0x06 ∨ fc = 0x10 ∨ fc = 0x16 ∨ fc = 0x17 then 2
  else 0

/-- mb_fc_get_extra_unit_chars from fc_policy.c. -/
def mb_fc_get_extra_unit_chars (fc : Nat) : Nat :=
  match mb_fc_get_policy fc with
  | some p => p.extra_unit_chars
  | none => 0

/-- mb_fc_get_max_quantity from fc_policy.c. -/
def mb_fc_get_max_quantity (fc : Nat) : Nat :=
  match mb_fc_get_policy fc with
  | some p => p.max_quantity
  | none => 0

/-- mb_fc_is_valid from fc_policy.c. -/
def mb_fc_is_valid (fc : Nat) : Bool :=
  (mb_fc_get_policy fc).isSome

/-- mb_block_are_compatible from block_utils.c: same slave id and
function code. -/
def mb_block_are_compatible (a b : Block) : Bool :=
  a.slave_id == b.slave_id && a.function_code == b.function_code

/-- mb_block_are_adjacent from block_utils.c: compatible and b starts right
after a ends (the end is computed in uint32, exact for uint16 fields). -/
def mb_block_are_adjacent (a b : Block) : Bool :=
  mb_block_are_compatible a b && (a.start_address + a.quantity == b.start_address)

/-- mb_block_calc_gap from block_utils.c: orders the pair by start address,
returns 0 when overlapping or adjacent, otherwise the distance between the
earlier end and the later start. -/
def mb_block_calc_gap (a b : Block) : Nat :=
  let p := if a.start_address > b.start_address then (b, a) else (a, b)
  let aEnd := p.1.start_address + p.1.quantity
  if aEnd ≥ p.2.start_address then 0 else p.2.start_address - aEnd

/-- mb_block_merge from block_utils.c: requires compatibility, orders the pair
by start address, spans from the earlier start to the later end. The quantity
field is a uint16 in C, hence the explicit `% 2^16`. -/
def mb_block_merge (a b : Block) : Except MbError Block :=
  if ¬ mb_block_are_compatible a b then .error .invalidParam
  else
    let p := if a.start_address > b.start_address then (b, a) else (a, b)
    let aEnd := p.1.start_address + p.1.quantity
    let bEnd := p.2.start_address + p.2.quantity
    let e := max aEnd bEnd
    .ok { slave_id := p.1.slave_id
          function_code := p.1.function_code
          start_address := p.1.start_address
          quantity := (e - p.1.start_address) % 2 ^ 16
          is_merged := true }

/-- mb_block_calc_data_size from block_utils.c: bytes occupied by the block
data on the wire (bits rounded up to bytes, 2 bytes per register). -/
def mb_block_calc_data_size (block : Block) : Nat :=
  let u := mb_fc_get_unit_size block.function_code
  if u = 1 then (block.quantity + 7) / 8
  else if u = 2 then block.quantity * 2
  else 0

/-- mb_block_validate from block_utils.c. -/
def mb_block_validate (block : Block) : Except MbError Unit :=
  if block.slave_id = 0 ∨ block.slave_id > 247 then .error .invalidAddress
  else if ¬ mb_fc_is_valid block.function_code then .error .invalidFc
  else if block.quantity = 0 then .error .invalidQuantity
  else if block.quantity > mb_fc_get_max_quantity block.function_code then
    .error .invalidQuantity
  else if block.start_address + block.quantity > 0x10000 then .error .invalidAddress
  else .ok ()

/-- mb_calc_gap_cost from char_model.c: 0 for a zero gap; for the bit-based
read codes FC01/FC02 the byte count rounded up, otherwise two bytes per unit.
The C result is a uint16, hence the `% 2^16` (reachable: gap_units up to 65535
makes gap_units * 2 overflow). -/
def mb_calc_gap_cost (fc : Nat) (gap_units : Nat) : Nat :=
  if gap_units = 0 then 0
  else if fc = 0x01 ∨ fc = 0x02 then ((gap_units + 7) / 8) % 2 ^ 16
  else (gap_units * 2) % 2 ^ 16

/-- Interpretation of a C `(int16_t)` cast of an int value. -/
def toInt16 (n : Int) : Int :=
  let m := n % 2 ^ 16
  if m < 2 ^ 15 then m else m - 2 ^ 16

/-- mb_calc_merge_savings from char_model.c: overhead minus gap cost, cast to
int16_t (the C subtraction happens in int, then truncates). -/
def mb_calc_merge_savings (gap_units fc : Nat) (cp : CostParams) : Int :=
  let overhead_cost : Nat :=
    cp.req_fixed_chars + cp.resp_fixed_chars + cp.gap_chars + cp.latency_chars
  toInt16 ((overhead_cost : Int) - (mb_calc_gap_cost fc gap_units : Int))

/-- mb_should_merge_blocks from gap_merge.c. -/
def mb_should_merge_blocks (a b : Block) (cp : CostParams) : Bool :=
  if ¬ mb_block_are_compatible a b then false
  else if ¬ mb_fc_supports_merge a.function_code then false
  else if mb_block_are_adjacent a b then true
  else
    let gap_units := mb_block_calc_gap a b
    if gap_units = 0 then true
    else mb_calc_merge_savings gap_units a.function_code cp > 0

/-- mb_lrc from lrc.c: two's-complement of the byte sum (0 for empty input). -/
def mb_lrc (data : List Nat) : Nat :=
  if data = [] then 0
  else (2 ^ 8 - data.foldl (fun s b => (s + b) % 2 ^ 8) 0) % 2 ^ 8

/-- mb_lrc_verify from lrc.c: recompute over all but the trailing byte and
compare with it. -/
def mb_lrc_verify (frame : List Nat) : Bool :=
  if frame.length < 2 then false
  else mb_lrc (frame.take (frame.length - 1)) == frame.getD (frame.length - 1) 0

/-- Modelled from the spec: one bit-step of CRC-16/Modbus (the crc16.c
implementation is absent from the sources; only its header and tests are
present). Polynomial 0xA001 (reflected), shift right, conditional xor. -/
def crcBitStep (crc : Nat) : Nat :=
  if crc % 2 = 1 then (crc / 2) ^^^ 0xA001 else crc / 2

/-- Modelled from the spec: fold one input byte into the CRC (xor into the low
byte, then eight bit-steps). -/
def crcByteStep (crc b : Nat) : Nat :=
  crcBitStep (crcBitStep (crcBitStep (crcBitStep
    (crcBitStep (crcBitStep (crcBitStep (crcBitStep (crc ^^^ b))))))))

/-- Modelled from the spec: mb_crc16 — CRC-16/Modbus with initial value
0xFFFF, no final xor, reflected input and output (crc16.c is absent from the
sources). `crc(empty) = 0xFFFF` as the contract requires. -/
def mb_crc16 (data : List Nat) : Nat :=
  data.foldl crcByteStep 0xFFFF

/-- Modelled from the spec: mb_crc16_verify — recompute the CRC over all but
the last two bytes and match them as (low, high); frames shorter than the
trailer are invalid (crc16.c is absent from the sources). -/
def mb_crc16_verify (frame : List Nat) : Bool :=
  if frame.length < 2 then false
  else
    let crc := mb_crc16 (frame.take (frame.length - 2))
    frame.getD (frame.length - 2) 0 == crc % 2 ^ 8 &&
      frame.getD (frame.length - 1) 0 == crc / 2 ^ 8 % 2 ^ 8

/-- parse_write_single_coil_response from response_parser.c: checks the echoed
address, then compares the decoded boolean (value equals 0xFF00) with the
expected one. -/
def parse_write_single_coil_response (pdu : List Nat) (expected_addr : Nat)
    (expected_value : Bool) : Except MbError Unit :=
  if pdu.length < 4 then .error .invalidFrame
  else
    let addr := pdu.getD 0 0 * 2 ^ 8 + pdu.getD 1 0
    let value := pdu.getD 2 0 * 2 ^ 8 + pdu.getD 3 0
    if addr ≠ expected_addr then .error .invalidFrame
    else
      let actual_value : Bool := value == 0xFF00
      if actual_value ≠ expected_value then .error .invalidFrame
      else .ok ()

/-- parse_write_single_register_response from response_parser.c. -/
def parse_write_single_register_response (pdu : List Nat) (expected_addr : Nat)
    (expected_value : Nat) : Except MbError Unit :=
  if pdu.length < 4 then .error .invalidFrame
  else
    let addr := pdu.getD 0 0 * 2 ^ 8 + pdu.getD 1 0
    let value := pdu.getD 2 0 * 2 ^ 8 + pdu.getD 3 0
    if addr ≠ expected_addr ∨ value ≠ expected_value then .error .invalidFrame
    else .ok ()

/-- parse_write_multiple_response from response_parser.c. -/
def parse_write_multiple_response (pdu : List Nat) (expected_addr : Nat)
    (expected_quantity : Nat) : Except MbError Unit :=
  if pdu.length < 4 then .error .invalidFrame
  else
    let addr := pdu.getD 0 0 * 2 ^ 8 + pdu.getD 1 0
    let quantity := pdu.getD 2 0 * 2 ^ 8 + pdu.getD 3 0
    if addr ≠ expected_addr ∨ quantity ≠ expected_quantity then .error .invalidFrame
    else .ok ()

/-- The `const void *expected_data` argument of mb_parse_write_response,
typed by the function code in every caller: a boolean for FC05, a register
value for FC06, absent for FC15/FC16. -/
inductive ExpectedData where
  | noData
  | coilValue (b : Bool)
  | regValue (v : Nat)
  deriving DecidableEq, Repr

/-- mb_parse_write_response from response_parser.c. The C reinterprets the
void pointer according to the function code; an argument of the wrong shape
for the selected code is outside the C contract and is mapped to the same
invalidParam as a null pointer. -/
def mb_parse_write_response (fc : Nat) (pdu : List Nat) (address quantity : Nat)
    (expected_data : ExpectedData) : Except MbError Unit :=
  if fc &&& 0x80 ≠ 0 then
    if pdu.length ≥ 1 then .error .exceptionResponse else .error .invalidFrame
  else if fc = 0x05 then
    match expected_data with
    | .coilValue b => parse_write_single_coil_response pdu address b
    | _ => .error .invalidParam
  else if fc = 0x06 then
    match expected_data with
    | .regValue v => parse_write_single_register_response pdu address v
    | _ => .error .invalidParam
  else if fc = 0x0F ∨ fc = 0x10 then
    parse_write_multiple_response pdu address quantity
  else .error .invalidFc

/-- parse_read_bits_response from response_parser.c (FC01/FC02): the first
PDU byte is the byte count, checked against ceil(quantity/8); the data bytes
are copied verbatim. -/
def parse_read_bits_response (pdu : List Nat) (quantity : Nat) :
    Except MbError (List Nat) :=
  if pdu.length < 1 then .error .invalidFrame
  else
    let byte_count := pdu.getD 0 0
    let expected_bytes := (quantity + 7) / 8
    if byte_count ≠ expected_bytes ∨ pdu.length < 1 + byte_count then
      .error .invalidFrame
    else .ok ((pdu.drop 1).take byte_count)

/-- parse_read_registers_response from response_parser.c (FC03/FC04): byte
count must be 2 * quantity (the C expected count is a uint16, hence the mod);
register values are decoded big-endian. -/
def parse_read_registers_response (pdu : List Nat) (quantity : Nat) :
    Except MbError (List Nat) :=
  if pdu.length < 1 then .error .invalidFrame
  else
    let byte_count := pdu.getD 0 0
    let expected_bytes := quantity * 2 % 2 ^ 16
    if byte_count ≠ expected_bytes ∨ pdu.length < 1 + byte_count then
      .error .invalidFrame
    else
      .ok ((List.range quantity).map fun i =>
        pdu.getD (1 + i * 2) 0 * 2 ^ 8 + pdu.getD (2 + i * 2) 0)

/-- mb_parse_read_response from response_parser.c: exception detection on the
high bit of the function code, then dispatch by read code. -/
def mb_parse_read_response (fc : Nat) (pdu : List Nat) (quantity : Nat) :
    Except MbError (List Nat) :=
  if fc &&& 0x80 ≠ 0 then
    if pdu.length ≥ 1 then .error .exceptionResponse else .error .invalidFrame
  else if fc = 0x01 ∨ fc = 0x02 then parse_read_bits_response pdu quantity
  else if fc = 0x03 ∨ fc = 0x04 then parse_read_registers_response pdu quantity
  else .error .invalidFc

/-- The sorted copy of the address array made by mb_addresses_to_blocks
(the C uses an in-place bubble sort; on Nat values any comparison sort
computes the same function — the unique weakly-increasing permutation —
so the embedding uses insertion sort). -/
def sortedAddresses (addresses : List Nat) : List Nat :=
  List.insertionSort (· ≤ ·) addresses

/-- The grouping loop of mb_addresses_to_blocks: `start`/`qty` are the
accumulator of the current block; an address equal to the previous one plus
one (that is, to `start + qty`) extends the run, anything else emits the
block and starts a new one. -/
def groupRun (slave fc : Nat) : Nat → Nat → List Nat → List Block
  | start, qty, [] => [⟨slave, fc, start, qty, false⟩]
  | start, qty, a :: rest =>
    if a = start + qty then groupRun slave fc start (qty + 1) rest
    else ⟨slave, fc, start, qty, false⟩ :: groupRun slave fc a 1 rest

/-- mb_addresses_to_blocks from block_utils.c: empty input yields zero blocks,
an invalid function code is rejected, otherwise the sorted addresses are
grouped into runs; the capacity check fails once the block count would exceed
max_blocks. -/
def mb_addresses_to_blocks (addresses : List Nat) (slave fc : Nat)
    (max_blocks : Nat) : Except MbError (List Block) :=
  if addresses = [] then .ok []
  else if ¬ mb_fc_is_valid fc then .error .invalidFc
  else
    match sortedAddresses addresses with
    | [] => .ok []
    | a :: rest =>
      let blocks := groupRun slave fc a 1 rest
      if blocks.length ≤ max_blocks then .ok blocks else .error .tooManyBlocks

/-- mb_init_pdu from ffd_pack.c. -/
def mb_init_pdu (slave fc : Nat) : Pdu :=
  ⟨slave, fc, 0, 0, 0⟩

/-- mb_calc_pdu_data_size from ffd_pack.c. -/
def mb_calc_pdu_data_size (pdu : Pdu) : Nat :=
  if pdu.quantity = 0 then 0
  else
    let u := mb_fc_get_unit_size pdu.function_code
    if u = 1 then (pdu.quantity + 7) / 8
    else if u = 2 then pdu.quantity * 2
    else 0

/-- mb_block_fits_pdu from ffd_pack.c: an empty bin accepts any block whose
own data size fits; otherwise slave and code must match and the combined span
must respect both the max-quantity and the byte limit. The combined quantity
is a uint16 in C, hence the `% 2^16`. -/
def mb_block_fits_pdu (block : Block) (pdu : Pdu) (max_pdu_chars : Nat) : Bool :=
  if pdu.quantity = 0 then mb_block_calc_data_size block ≤ max_pdu_chars
  else if block.slave_id ≠ pdu.slave_id ∨ block.function_code ≠ pdu.function_code then
    false
  else
    let min_addr := min block.start_address pdu.start_address
    let max_end := max (block.start_address + block.quantity)
      (pdu.start_address + pdu.quantity)
    let merged_quantity := (max_end - min_addr) % 2 ^ 16
    if merged_quantity > mb_fc_get_max_quantity block.function_code then false
    else
      let u := mb_fc_get_unit_size block.function_code
      if u = 1 then (merged_quantity + 7) / 8 ≤ max_pdu_chars
      else if u = 2 then merged_quantity * 2 ≤ max_pdu_chars
      else false

/-- mb_add_block_to_pdu from ffd_pack.c: an empty bin is initialized from the
block; otherwise the bin span absorbs the block span. -/
def mb_add_block_to_pdu (block : Block) (pdu : Pdu) : Pdu :=
  if pdu.quantity = 0 then
    ⟨block.slave_id, block.function_code, block.start_address, block.quantity,
      mb_block_calc_data_size block⟩
  else
    let min_addr := min block.start_address pdu.start_address
    let max_end := max (block.start_address + block.quantity)
      (pdu.start_address + pdu.quantity)
    let q := (max_end - min_addr) % 2 ^ 16
    let p : Pdu := ⟨pdu.slave_id, pdu.function_code, min_addr, q, pdu.total_chars⟩
    { p with total_chars := mb_calc_pdu_data_size p }

/-- The first-fit scan of mb_ffd_pack: place the block into the first bin
that accepts it. -/
def placeFirst (block : Block) (max_pdu_chars : Nat) : List Pdu → Option (List Pdu)
  | [] => none
  | p :: ps =>
    if mb_block_fits_pdu block p max_pdu_chars then
      some (mb_add_block_to_pdu block p :: ps)
    else (placeFirst block max_pdu_chars ps).map (p :: ·)

/-- The main loop of mb_ffd_pack: first-fit, else open a new bin initialized
from the block (failing when the bin capacity is exhausted). -/
def ffdLoop (max_pdu_chars max_pdus : Nat) :
    List Block → List Pdu → Except MbError (List Pdu)
  | [], pdus => .ok pdus
  | b :: bs, pdus =>
    match placeFirst b max_pdu_chars pdus with
    | some pdus' => ffdLoop max_pdu_chars max_pdus bs pdus'
    | none =>
      if pdus.length ≥ max_pdus then .error .tooManyBlocks
      else
        ffdLoop max_pdu_chars max_pdus bs
          (pdus ++ [mb_add_block_to_pdu b (mb_init_pdu b.slave_id b.function_code)])

/-- The descending-by-quantity sorted copy made by mb_ffd_pack (the C uses
qsort with a descending comparator; ties are in unspecified order there, and
the packing limits proved below hold for every order). -/
def sortByQuantityDesc (blocks : List Block) : List Block :=
  List.insertionSort (fun a b => b.quantity ≤ a.quantity) blocks

/-- mb_ffd_pack from ffd_pack.c. -/
def mb_ffd_pack (blocks : List Block) (max_pdu_chars max_pdus : Nat) :
    Except MbError (List Pdu) :=
  if blocks = [] then .ok []
  else ffdLoop max_pdu_chars max_pdus (sortByQuantityDesc blocks) []

/-- mb_rtu_build_frame from rtu_frame.c: slave, code, pdu, then the CRC low
byte and high byte (the C caller buffer management is elided; the claims
quantify over frames the builder produced). -/
def mb_rtu_build_frame (slave_id fc : Nat) (pdu : List Nat) : List Nat :=
  let base := slave_id :: fc :: pdu
  let crc := mb_crc16 base
  base ++ [crc % 2 ^ 8, crc / 2 ^ 8 % 2 ^ 8]

/-- mb_rtu_parse_frame from rtu_frame.c: minimum length 4, CRC check, then
the fields and the pdu of length frame_length - 4. -/
def mb_rtu_parse_frame (frame : List Nat) :
    Except MbError (Nat × Nat × List Nat) :=
  if frame.length < 4 then .error .invalidFrame
  else if ¬ mb_crc16_verify frame then .error .crcMismatch
  else .ok (frame.getD 0 0, frame.getD 1 0, (frame.drop 2).take (frame.length - 4))

/-- byte_to_hex from ascii_frame.c, producing the two ASCII codes of the
uppercase hex digits (the C shifts/masks are the divisions below). -/
def hexDigitCode (n : Nat) : Nat :=
  if n < 10 then 48 + n else 55 + n

/-- The two hex character codes of one byte. -/
def hexPair (b : Nat) : List Nat :=
  [hexDigitCode (b / 2 ^ 4 % 2 ^ 4), hexDigitCode (b % 2 ^ 4)]

/-- hex_to_byte from ascii_frame.c, one nibble: accepts 0-9, A-F, a-f. -/
def hexVal (c : Nat) : Option Nat :=
  if 48 ≤ c ∧ c ≤ 57 then some (c - 48)
  else if 65 ≤ c ∧ c ≤ 70 then some (c - 55)
  else if 97 ≤ c ∧ c ≤ 102 then some (c - 87)
  else none

/-- hex_to_byte from ascii_frame.c: two nibbles into one byte. -/
def hexToByte (hi lo : Nat) : Option Nat :=
  match hexVal hi, hexVal lo with
  | some h, some l => some (h * 2 ^ 4 + l)
  | _, _ => none

/-- The pdu hex region parser of mb_ascii_parse_frame: consecutive pairs of
hex characters. -/
def parseHexPairs : List Nat → Option (List Nat)
  | [] => some []
  | [_] => none
  | hi :: lo :: rest =>
    match hexToByte hi lo, parseHexPairs rest with
    | some b, some bs => some (b :: bs)
    | _, _ => none

/-- mb_ascii_build_frame from ascii_frame.c: colon, hex slave, hex code, hex
pdu, hex LRC (computed over the binary slave/code/pdu), CR, LF. -/
def mb_ascii_build_frame (slave_id fc : Nat) (pdu : List Nat) : List Nat :=
  let lrc := mb_lrc (slave_id :: fc :: pdu)
  58 :: hexPair slave_id ++ hexPair fc ++ pdu.flatMap hexPair ++ hexPair lrc ++ [13, 10]

/-- mb_ascii_parse_frame from ascii_frame.c: minimum length 9, leading colon,
trailing CR LF, hex-decoded fields, then the LRC comparison (recomputed over
the decoded binary bytes). -/
def mb_ascii_parse_frame (frame : List Nat) :
    Except MbError (Nat × Nat × List Nat) :=
  let n := frame.length
  if n < 9 then .error .invalidFrame
  else if frame.getD 0 0 ≠ 58 then .error .invalidFrame
  else if frame.getD (n - 2) 0 ≠ 13 ∨ frame.getD (n - 1) 0 ≠ 10 then .error .invalidFrame
  else
    match hexToByte (frame.getD 1 0) (frame.getD 2 0),
        hexToByte (frame.getD 3 0) (frame.getD 4 0) with
    | some slave_id, some fc =>
      let pduLen := (n - 9) / 2
      match parseHexPairs ((frame.drop 5).take (2 * pduLen)) with
      | some pdu =>
        match hexToByte (frame.getD (5 + 2 * pduLen) 0) (frame.getD (6 + 2 * pduLen) 0) with
        | some frame_lrc =>
          if mb_lrc (slave_id :: fc :: pdu) = frame_lrc then .ok (slave_id, fc, pdu)
          else .error .lrcMismatch
        | none => .error .invalidFrame
      | none => .error .invalidFrame
    | _, _ => .error .invalidFrame

/-- mb_tcp_build_frame from tcp_frame.c: MBAP header (transaction id, protocol
id 0, length = 2 + pdu length as uint16), unit id, code, pdu. -/
def mb_tcp_build_frame (transaction_id unit_id fc : Nat) (pdu : List Nat) : List Nat :=
  let len := (1 + 1 + pdu.length) % 2 ^ 16
  [transaction_id / 2 ^ 8 % 2 ^ 8, transaction_id % 2 ^ 8, 0, 0,
    len / 2 ^ 8 % 2 ^ 8, len % 2 ^ 8, unit_id, fc] ++ pdu

/-- mb_tcp_parse_frame from tcp_frame.c: minimum length 8, protocol id must
be zero, the length field must match the frame length exactly. -/
def mb_tcp_parse_frame (frame : List Nat) :
    Except MbError (Nat × Nat × Nat × List Nat) :=
  if frame.length < 8 then .error .invalidFrame
  else
    let transaction_id := frame.getD 0 0 * 2 ^ 8 + frame.getD 1 0
    let protocol_id := frame.getD 2 0 * 2 ^ 8 + frame.getD 3 0
    if protocol_id ≠ 0 then .error .invalidFrame
    else
      let len := frame.getD 4 0 * 2 ^ 8 + frame.getD 5 0
      if 6 + len ≠ frame.length then .error .invalidFrame
      else
        .ok (transaction_id, frame.getD 6 0, frame.getD 7 0,
          (frame.drop 8).take (len - 2))

/-- Statistics counters (mb_stats_t), uint32 in C. -/
structure MbStats where
  total_requests : Nat
  optimized_requests : Nat
  rounds_saved : Nat
  blocks_merged : Nat
  total_chars_sent : Nat
  total_chars_recv : Nat
  deriving DecidableEq, Repr

/-- User read request (mb_read_request_t). -/
structure ReadRequest where
  slave_id : Nat
  function_code : Nat
  addresses : List Nat
  deriving DecidableEq, Repr

/-- The fields of a request plan (mb_request_plan_t) used by the execution
loop of mb_master_read_optimized. -/
structure Plan where
  slave_id : Nat
  function_code : Nat
  start_address : Nat
  quantity : Nat
  deriving DecidableEq, Repr

/-- One transport round-trip outcome: the send callback fails, or the receive
callback delivers the given bytes (an empty delivery is the C timeout case,
recv_result < 0 or received == 0). -/
inductive TransportEv where
  | sendFail
  | recv (bytes : List Nat)
  deriving DecidableEq, Repr

/-- uint32 truncation. -/
def u32 (n : Nat) : Nat := n % 2 ^ 32

/-- mb_build_frame from frame_builder.c: dispatch by mode; the TCP builder is
called with transaction id 0. The buffer-size failure cannot occur for the
master's 260-byte buffer and 4-byte request pdus, so the model is total. -/
def mb_build_frame (slave_id fc : Nat) (pdu : List Nat) (mode : MbMode) :
    Except MbError (List Nat) :=
  match mode with
  | .rtu => .ok (mb_rtu_build_frame slave_id fc pdu)
  | .ascii => .ok (mb_ascii_build_frame slave_id fc pdu)
  | .tcp => .ok (mb_tcp_build_frame 0 slave_id fc pdu)

/-- mb_parse_frame from frame_builder.c: dispatch by mode; the TCP transaction
id is parsed into a local and dropped. -/
def mb_parse_frame (frame : List Nat) (mode : MbMode) :
    Except MbError (Nat × Nat × List Nat) :=
  match mode with
  | .rtu => mb_rtu_parse_frame frame
  | .ascii => mb_ascii_parse_frame frame
  | .tcp => (mb_tcp_parse_frame frame).map (fun r => (r.2.1, r.2.2.1, r.2.2.2))

/-- One `total_requests++` of master_api.c. -/
def bumpRequests (s : MbStats) : MbStats :=
  { s with total_requests := u32 (s.total_requests + 1) }

/-- The statistics update at the end of one successful round-trip of
mb_master_read_optimized: `total_requests` is incremented twice, then the
character counters grow by the frame lengths. -/
def addRoundTripStats (s : MbStats) (sentLen recvLen : Nat) : MbStats :=
  let s2 := bumpRequests (bumpRequests s)
  { s2 with
    total_chars_sent := u32 (s2.total_chars_sent + sentLen)
    total_chars_recv := u32 (s2.total_chars_recv + recvLen) }

/-- The statistics update after the plan loop of mb_master_read_optimized:
`optimized_requests++` and `blocks_merged += address_count - plan_count`
(a C int difference converted to uint32 on the add). -/
def finishOptimizedStats (s : MbStats) (address_count plan_count : Nat) : MbStats :=
  { s with
    optimized_requests := u32 (s.optimized_requests + 1)
    blocks_merged :=
      u32 (s.blocks_merged + (((address_count : Int) - (plan_count : Int)) % 2 ^ 32).toNat) }

/-- The per-plan execution loop of mb_master_read_optimized (master_api.c):
for each plan, build the 4-byte read pdu, build the frame, send it, receive
and decode the response, parse the data into the temporary buffer, and append
it to the caller buffer clamped at buffer_size. Each plan consumes one
transport event; every early exit increments `total_requests` once exactly as
the C error paths do. The returned quadruple is (result, statistics, caller
buffer contents, frames handed to the transport). For the bit-based codes the
C reinterprets the parsed byte buffer as uint16 words when copying — a memory
representation detail outside this embedding; the copy below appends the
parsed list itself, with the same clamped length. -/
def execPlans (mode : MbMode) (buffer_size : Nat) :
    List Plan → List TransportEv → MbStats → List Nat → List (List Nat) →
    Except MbError Unit × MbStats × List Nat × List (List Nat)
  | [], _, stats, data, sends => (.ok (), stats, data, sends)
  | plan :: rest, evs, stats, data, sends =>
    let pdu := [plan.start_address / 2 ^ 8 % 2 ^ 8, plan.start_address % 2 ^ 8,
                plan.quantity / 2 ^ 8 % 2 ^ 8, plan.quantity % 2 ^ 8]
    match mb_build_frame plan.slave_id plan.function_code pdu mode with
    | .error e => (.error e, bumpRequests stats, data, sends)
    | .ok frame =>
      match evs with
      | [] => (.error .timeout, bumpRequests stats, data, sends ++ [frame])
      | .sendFail :: _ => (.error .transport, bumpRequests stats, data, sends ++ [frame])
      | .recv resp :: evTail =>
        if resp.length = 0 then
          (.error .timeout, bumpRequests stats, data, sends ++ [frame])
        else
          match mb_parse_frame resp mode with
          | .error e => (.error e, bumpRequests stats, data, sends ++ [frame])
          | .ok (resp_slave_id, resp_fc, resp_pdu) =>
            if resp_slave_id ≠ plan.slave_id then
              (.error .invalidFrame, bumpRequests stats, data, sends ++ [frame])
            else
              match mb_parse_read_response resp_fc resp_pdu plan.quantity with
              | .error e => (.error e, bumpRequests stats, data, sends ++ [frame])
              | .ok temp =>
                let newData :=
                  data ++ temp.take (min plan.quantity (buffer_size - data.length))
                execPlans mode buffer_size rest evTail
                  (addRoundTripStats stats frame.length resp.length) newData
                  (sends ++ [frame])

/-- mb_master_read_optimized from master_api.c. The call to
mb_optimize_request is abstracted by its outcome `planResult`, and the
transport by `events` (one entry per attempted round-trip); everything else
follows the C control flow: the buffer-size guard runs first, before the
optimizer and before any transport interaction, and a successful loop is
followed by the optimization statistics update. -/
def mb_master_read_optimized (mode : MbMode) (stats : MbStats)
    (request : ReadRequest) (buffer_size : Nat)
    (planResult : Except MbError (List Plan)) (events : List TransportEv) :
    Except MbError Unit × MbStats × List Nat × List (List Nat) :=
  if buffer_size < request.addresses.length then
    (.error .bufferTooSmall, stats, [], [])
  else
    match planResult with
    | .error e => (.error e, stats, [], [])
    | .ok plans =>
      match execPlans mode buffer_size plans events stats [] [] with
      | (.ok _, st, data, sends) =>
        (.ok (), finishOptimizedStats st request.addresses.length plans.length,
          data, sends)
      | (.error e, st, data, sends) => (.error e, st, data, sends)

theorem getD_append_right_nat (l₁ l₂ : List Nat) (n : Nat) (h : l₁.length ≤ n) :
    (l₁ ++ l₂).getD n 0 = l₂.getD (n - l₁.length) 0 := by
  simp [List.getD_eq_getElem?_getD, List.getElem?_append_right h]

theorem compatible_symm (a b : Block) :
    mb_block_are_compatible a b = mb_block_are_compatible b a := by
  apply Bool.eq_iff_iff.mpr
  simp only [mb_block_are_compatible, Bool.and_eq_true, beq_iff_eq]
  constructor <;> rintro ⟨h1, h2⟩ <;> exact ⟨h1.symm, h2.symm⟩

/-- Claim C10: mb_block_calc_gap is symmetric in its arguments, and for
compatible blocks mb_block_merge produces the same result block in either
argument order (both canonicalize the pair by start address). -/
theorem gap_and_merge_symmetric :
    (∀ a b : Block, mb_block_calc_gap a b = mb_block_calc_gap b a) ∧
    (∀ a b : Block, mb_block_are_compatible a b = true →
      mb_block_merge a b = mb_block_merge b a) := by
  constructor
  · intro a b
    unfold mb_block_calc_gap
    rcases Nat.lt_trichotomy a.start_address b.start_address with h | h | h
    · have h1 : ¬ a.start_address > b.start_address := by omega
      have h2 : b.start_address > a.start_address := h
      simp [h1, h2]
    · have h1 : ¬ a.start_address > b.start_address := by omega
      have h2 : ¬ b.start_address > a.start_address := by omega
      simp only [h1, h2, if_false]
      simp [h]
    · have h1 : a.start_address > b.start_address := h
      have h2 : ¬ b.start_address > a.start_address := by omega
      simp [h1, h2]
  · intro a b hcomp
    have hs : a.slave_id = b.slave_id ∧ a.function_code = b.function_code := by
      simpa [mb_block_are_compatible, Bool.and_eq_true, beq_iff_eq] using hcomp
    have hcomp' : mb_block_are_compatible b a = true := by
      rw [← compatible_symm]; exact hcomp
    unfold mb_block_merge
    simp only [hcomp, hcomp', not_true, if_neg, if_false]
    rcases Nat.lt_trichotomy a.start_address b.start_address with h | h | h
    · have h1 : ¬ a.start_address > b.start_address := by omega
      have h2 : b.start_address > a.start_address := h
      simp [h1, h2]
    · have h1 : ¬ a.start_address > b.start_address := by omega
      have h2 : ¬ b.start_address > a.start_address := by omega
      simp only [h1, h2, if_false]
      simp [hs.1, hs.2, h, Nat.max_comm]
    · have h1 : a.start_address > b.start_address := h
      have h2 : ¬ b.start_address > a.start_address := by omega
      simp [h1, h2]

/-- Claim C10 witness: the symmetry theorems applied at concrete blocks. -/
theorem gap_and_merge_symmetric_witness :
    mb_block_calc_gap ⟨1, 3, 100, 3, false⟩ ⟨1, 3, 150, 3, false⟩ =
      mb_block_calc_gap ⟨1, 3, 150, 3, false⟩ ⟨1, 3, 100, 3, false⟩ ∧
    mb_block_merge ⟨1, 3, 100, 3, false⟩ ⟨1, 3, 150, 3, false⟩ =
      mb_block_merge ⟨1, 3, 150, 3, false⟩ ⟨1, 3, 100, 3, false⟩ :=
  ⟨gap_and_merge_symmetric.1 ⟨1, 3, 100, 3, false⟩ ⟨1, 3, 150, 3, false⟩,
   gap_and_merge_symmetric.2 ⟨1, 3, 100, 3, false⟩ ⟨1, 3, 150, 3, false⟩ (by decide)⟩

/-- Claim C8: the merge decision has no quantity-limit check — every
compatible, adjacent pair whose function code supports merging is merged
unconditionally, the merged block spans both inputs, and concretely two
adjacent FC03 blocks of 100 registers each merge into one block of quantity
200, above the FC03 maximum of 125. -/
theorem merge_has_no_quantity_limit :
    (∀ (a b : Block) (cp : CostParams),
      mb_block_are_adjacent a b = true →
      mb_fc_supports_merge a.function_code = true →
      mb_should_merge_blocks a b cp = true) ∧
    (∀ a b : Block, mb_block_are_adjacent a b = true →
      a.quantity + b.quantity < 2 ^ 16 →
      mb_block_merge a b = .ok ⟨a.slave_id, a.function_code, a.start_address,
        a.quantity + b.quantity, true⟩) ∧
    (mb_should_merge_blocks ⟨1, 3, 0, 100, false⟩ ⟨1, 3, 100, 100, false⟩ ⟨6, 5, 4, 2⟩ = true ∧
     mb_block_merge ⟨1, 3, 0, 100, false⟩ ⟨1, 3, 100, 100, false⟩ =
       .ok ⟨1, 3, 0, 200, true⟩ ∧
     mb_fc_get_max_quantity 3 < 200) := by
  refine ⟨?_, ?_, by decide⟩
  · intro a b cp hadj hsup
    have hfields : (a.slave_id = b.slave_id ∧ a.function_code = b.function_code) ∧
        a.start_address + a.quantity = b.start_address := by
      simpa [mb_block_are_adjacent, mb_block_are_compatible, Bool.and_eq_true,
        beq_iff_eq] using hadj
    have hcomp : mb_block_are_compatible a b = true := by
      simp [mb_block_are_compatible, hfields.1.1, hfields.1.2]
    unfold mb_should_merge_blocks
    simp [hcomp, hsup, hadj]
  · intro a b hadj hq
    have hfields : (a.slave_id = b.slave_id ∧ a.function_code = b.function_code) ∧
        a.start_address + a.quantity = b.start_address := by
      simpa [mb_block_are_adjacent, mb_block_are_compatible, Bool.and_eq_true,
        beq_iff_eq] using hadj
    have hcomp : mb_block_are_compatible a b = true := by
      simp [mb_block_are_compatible, hfields.1.1, hfields.1.2]
    have hst : a.start_address + a.quantity = b.start_address := hfields.2
    unfold mb_block_merge
    simp only [hcomp, not_true, if_neg, if_false]
    have h1 : ¬ a.start_address > b.start_address := by omega
    simp only [h1, if_false]
    have hmax : max (a.start_address + a.quantity) (b.start_address + b.quantity) =
        a.start_address + (a.quantity + b.quantity) := by omega
    simp [hmax, Nat.mod_eq_of_lt, hq]
    omega

/-- Claim C8 witness: the universal parts applied at concrete adjacent FC03
blocks. -/
theorem merge_has_no_quantity_limit_witness :
    mb_should_merge_blocks ⟨1, 3, 0, 100, false⟩ ⟨1, 3, 100, 100, false⟩ ⟨6, 5, 0, 1⟩ = true ∧
    mb_block_merge ⟨1, 3, 0, 100, false⟩ ⟨1, 3, 100, 100, false⟩ =
      .ok ⟨1, 3, 0, 200, true⟩ :=
  ⟨merge_has_no_quantity_limit.1 ⟨1, 3, 0, 100, false⟩ ⟨1, 3, 100, 100, false⟩
      ⟨6, 5, 0, 1⟩ (by decide) (by decide),
   merge_has_no_quantity_limit.2.1 ⟨1, 3, 0, 100, false⟩ ⟨1, 3, 100, 100, false⟩
      (by decide) (by decide)⟩

/-- Claim C2: evaluation of the merge decision at two FC03 blocks separated
by a gap of 16393 registers, with default RTU cost parameters: the gap cost
(32786) is far above the round-trip overhead (17), so the specified rule
says not to merge, but the int16 cast in mb_calc_merge_savings wraps the
difference 17 - 32786 to +32767 and mb_should_merge_blocks merges. -/
theorem merge_decision_savings_overflow :
    mb_block_calc_gap ⟨1, 3, 0, 1, false⟩ ⟨1, 3, 16394, 1, false⟩ = 16393 ∧
    mb_calc_gap_cost 3 16393 = 32786 ∧
    (6 + 5 + 4 + 2 : Nat) < 32786 ∧
    mb_calc_merge_savings 16393 3 ⟨6, 5, 4, 2⟩ = 32767 ∧
    mb_should_merge_blocks ⟨1, 3, 0, 1, false⟩ ⟨1, 3, 16394, 1, false⟩ ⟨6, 5, 4, 2⟩ = true := by
  decide

/-- Claim C6 counterexample: an FC05 echo whose value field is 0x1234 (neither
0xFF00 nor 0x0000) is accepted by mb_parse_write_response when the expected
value is false, instead of yielding the InvalidFrame error the claim
requires. -/
theorem coil_echo_accepts_nonstandard_value :
    mb_parse_write_response 0x05 [0x00, 0xAC, 0x12, 0x34] 0x00AC 1
      (.coilValue false) = .ok () := by
  decide

/-- Claim C6 (amended): parsing an FC05 response succeeds exactly when the
echoed address matches and the echoed value field decodes — as the boolean
(value = 0xFF00) — to the expected value; every rejection is InvalidFrame.
A non-0xFF00 value such as 0x1234 is therefore accepted when false is
expected, and rejected only when true is expected. -/
theorem coil_echo_boolean_check (pdu : List Nat) (addr q : Nat) (b : Bool)
    (h : 4 ≤ pdu.length) :
    (mb_parse_write_response 0x05 pdu addr q (.coilValue b) = .ok () ↔
      (pdu.getD 0 0 * 2 ^ 8 + pdu.getD 1 0 = addr ∧
       ((pdu.getD 2 0 * 2 ^ 8 + pdu.getD 3 0 == 0xFF00) = b))) ∧
    (mb_parse_write_response 0x05 pdu addr q (.coilValue b) = .ok () ∨
     mb_parse_write_response 0x05 pdu addr q (.coilValue b) = .error .invalidFrame) := by
  have hlen : ¬ (pdu.length < 4) := by omega
  unfold mb_parse_write_response parse_write_single_coil_response
  rw [if_neg (show ¬ ((0x05 : Nat) &&& 0x80 ≠ 0) by decide), if_pos rfl]
  dsimp only
  rw [if_neg hlen]
  split_ifs with h1 h2
  · exact ⟨⟨fun hok => absurd hok (by simp), fun hrhs => absurd hrhs.1 h1⟩, Or.inr rfl⟩
  · exact ⟨⟨fun hok => absurd hok (by simp), fun hrhs => absurd hrhs.2 h2⟩, Or.inr rfl⟩
  · rw [not_not] at h1 h2
    exact ⟨⟨fun _ => ⟨h1, h2⟩, fun _ => rfl⟩, Or.inl rfl⟩

/-- Claim C6 witness: the amended characterization applied at a concrete
correct FC05 echo. -/
theorem coil_echo_boolean_check_witness :
    (mb_parse_write_response 0x05 [0x00, 0xAC, 0xFF, 0x00] 0x00AC 1
        (.coilValue true) = .ok () ↔
      (([0x00, 0xAC, 0xFF, 0x00].getD 0 0 * 2 ^ 8 + [0x00, 0xAC, 0xFF, 0x00].getD 1 0
          = 0x00AC) ∧
       (([0x00, 0xAC, 0xFF, 0x00].getD 2 0 * 2 ^ 8 + [0x00, 0xAC, 0xFF, 0x00].getD 3 0
          == 0xFF00) = true))) ∧
    (mb_parse_write_response 0x05 [0x00, 0xAC, 0xFF, 0x00] 0x00AC 1
        (.coilValue true) = .ok () ∨
     mb_parse_write_response 0x05 [0x00, 0xAC, 0xFF, 0x00] 0x00AC 1
        (.coilValue true) = .error .invalidFrame) :=
  coil_echo_boolean_check [0x00, 0xAC, 0xFF, 0x00] 0x00AC 1 true (by decide)

theorem mb_lrc_lt (data : List Nat) : mb_lrc data < 2 ^ 8 := by
  unfold mb_lrc
  split_ifs
  · decide
  · exact Nat.mod_lt _ (by decide)

/-- Claim C7: checksum verification passes on round-trip — appending the
CRC16 low byte then high byte makes mb_crc16_verify accept, and appending
the LRC byte makes mb_lrc_verify accept, for every non-empty byte
sequence x. -/
theorem checksum_roundtrip (x : List Nat) (h : x ≠ []) :
    mb_crc16_verify (x ++ [mb_crc16 x % 2 ^ 8, mb_crc16 x / 2 ^ 8 % 2 ^ 8]) = true ∧
    mb_lrc_verify (x ++ [mb_lrc x]) = true := by
  have hx : 1 ≤ x.length := by
    cases x with
    | nil => exact absurd rfl h
    | cons a l => simp
  constructor
  · unfold mb_crc16_verify
    have hlen : (x ++ [mb_crc16 x % 2 ^ 8, mb_crc16 x / 2 ^ 8 % 2 ^ 8]).length =
        x.length + 2 := by simp
    rw [hlen, if_neg (by omega)]
    have htake : (x ++ [mb_crc16 x % 2 ^ 8, mb_crc16 x / 2 ^ 8 % 2 ^ 8]).take
        (x.length + 2 - 2) = x := by
      simp
    have hlo : (x ++ [mb_crc16 x % 2 ^ 8, mb_crc16 x / 2 ^ 8 % 2 ^ 8]).getD
        (x.length + 2 - 2) 0 = mb_crc16 x % 2 ^ 8 := by
      rw [getD_append_right_nat _ _ _ (by omega)]
      simp
    have hhi : (x ++ [mb_crc16 x % 2 ^ 8, mb_crc16 x / 2 ^ 8 % 2 ^ 8]).getD
        (x.length + 2 - 1) 0 = mb_crc16 x / 2 ^ 8 % 2 ^ 8 := by
      rw [getD_append_right_nat _ _ _ (by omega)]
      have : x.length + 2 - 1 - x.length = 1 := by omega
      rw [this]
      rfl
    rw [htake, hlo, hhi]
    simp
  · unfold mb_lrc_verify
    have hlen : (x ++ [mb_lrc x]).length = x.length + 1 := by simp
    rw [hlen, if_neg (by omega)]
    have htake : (x ++ [mb_lrc x]).take (x.length + 1 - 1) = x := by simp
    have hget : (x ++ [mb_lrc x]).getD (x.length + 1 - 1) 0 = mb_lrc x := by
      rw [getD_append_right_nat _ _ _ (by omega)]
      simp
    rw [htake, hget]
    simp

/-- Claim C7 witness: the round-trip theorem applied at the specification
CRC example bytes (slave 1, FC03, start 0, quantity 2). -/
theorem checksum_roundtrip_witness :
    mb_crc16_verify ([0x01, 0x03, 0x00, 0x00, 0x00, 0x02] ++
      [mb_crc16 [0x01, 0x03, 0x00, 0x00, 0x00, 0x02] % 2 ^ 8,
       mb_crc16 [0x01, 0x03, 0x00, 0x00, 0x00, 0x02] / 2 ^ 8 % 2 ^ 8]) = true ∧
    mb_lrc_verify ([0x01, 0x03, 0x00, 0x00, 0x00, 0x02] ++
      [mb_lrc [0x01, 0x03, 0x00, 0x00, 0x00, 0x02]]) = true :=
  checksum_roundtrip [0x01, 0x03, 0x00, 0x00, 0x00, 0x02] (by decide)

/-- The CRC test vectors of test_crc16.c, checked against the spec-modelled
CRC16: 0x0BC4 for the standard example and the little-endian trailer
0xC4 0x0B emitted by the RTU builder. -/
theorem crc16_test_vectors :
    mb_crc16 [] = 0xFFFF ∧
    mb_crc16 [0x01] = 0x807E ∧
    mb_crc16 [0x01, 0x03, 0x00, 0x00, 0x00, 0x02] = 0x0BC4 ∧
    mb_crc16 [0x11, 0x03, 0x00, 0x6B, 0x00, 0x03] = 0x8776 ∧
    mb_rtu_build_frame 0x01 0x03 [0x00, 0x00, 0x00, 0x02] =
      [0x01, 0x03, 0x00, 0x00, 0x00, 0x02, 0xC4, 0x0B] ∧
    mb_lrc [0x01, 0x03, 0x00, 0x00, 0x00, 0x02] = 0xFA := by
  decide

theorem range'_snoc (s n : Nat) : List.range' s n ++ [s + n] = List.range' s (n + 1) := by
  induction n generalizing s with
  | zero => simp
  | succ n ih =>
    rw [List.range'_succ, List.range'_succ s (n + 1)]
    have : s + (n + 1) = (s + 1) + n := by omega
    rw [List.cons_append, this, ih (s + 1)]

theorem groupRun_flatMap (s f : Nat) (l : List Nat) : ∀ start qty : Nat,
    (groupRun s f start qty l).flatMap
      (fun b => List.range' b.start_address b.quantity) =
    List.range' start qty ++ l := by
  induction l with
  | nil => intro start qty; simp [groupRun]
  | cons a rest ih =>
    intro start qty
    by_cases hd : a = start + qty
    · rw [groupRun, if_pos hd, ih start (qty + 1), ← range'_snoc, ← hd]
      simp
    · rw [groupRun, if_neg hd]
      simp only [List.flatMap_cons]
      rw [ih a 1]
      simp [List.range'_succ]

theorem groupRun_length (s f : Nat) (l : List Nat) : ∀ start qty : Nat,
    (groupRun s f start qty l).length ≤ 1 + l.length := by
  induction l with
  | nil => intro start qty; simp [groupRun]
  | cons a rest ih =>
    intro start qty
    by_cases hd : a = start + qty
    · rw [groupRun, if_pos hd]
      have := ih start (qty + 1)
      simpa using Nat.le_trans this (by simp)
    · rw [groupRun, if_neg hd]
      have := ih a 1
      simp only [List.length_cons]
      omega

theorem groupRun_fields (s f : Nat) (l : List Nat) : ∀ start qty : Nat, 1 ≤ qty →
    ∀ b ∈ groupRun s f start qty l,
      b.slave_id = s ∧ b.function_code = f ∧ 1 ≤ b.quantity := by
  induction l with
  | nil =>
    intro start qty hq b hb
    simp [groupRun] at hb
    subst hb
    exact ⟨rfl, rfl, hq⟩
  | cons a rest ih =>
    intro start qty hq b hb
    by_cases hd : a = start + qty
    · rw [groupRun, if_pos hd] at hb
      exact ih start (qty + 1) (by omega) b hb
    · rw [groupRun, if_neg hd] at hb
      rcases List.mem_cons.mp hb with h | h
      · subst h
        exact ⟨rfl, rfl, hq⟩
      · exact ih a 1 le_rfl b h

theorem groupRun_chain (s f : Nat) (l : List Nat) : ∀ start qty : Nat,
    l.Pairwise (· < ·) → (∀ x ∈ l, start + qty ≤ x) →
    (groupRun s f start qty l).Chain'
      (fun b c => b.start_address + b.quantity < c.start_address) ∧
    ∃ q, qty ≤ q ∧ (groupRun s f start qty l).head? = some ⟨s, f, start, q, false⟩ := by
  induction l with
  | nil =>
    intro start qty _ _
    exact ⟨List.chain'_singleton _, ⟨qty, le_rfl, rfl⟩⟩
  | cons a rest ih =>
    intro start qty hpw hge
    rw [List.pairwise_cons] at hpw
    obtain ⟨ha, hrest⟩ := hpw
    by_cases hd : a = start + qty
    · have hge2 : ∀ x ∈ rest, start + (qty + 1) ≤ x := by
        intro x hx
        have := ha x hx
        omega
      have hres := ih start (qty + 1) hrest hge2
      rw [groupRun, if_pos hd]
      obtain ⟨q, hq, hh⟩ := hres.2
      exact ⟨hres.1, ⟨q, by omega, hh⟩⟩
    · have hlt : start + qty < a := by
        have := hge a (List.mem_cons_self a rest)
        omega
      have hge1 : ∀ x ∈ rest, a + 1 ≤ x := by
        intro x hx
        have := ha x hx
        omega
      have hres := ih a 1 hrest hge1
      rw [groupRun, if_neg hd]
      obtain ⟨q, hq1, hhead⟩ := hres.2
      refine ⟨List.chain'_cons'.mpr ⟨?_, hres.1⟩, ⟨qty, le_rfl, rfl⟩⟩
      intro y hy
      rw [hhead] at hy
      have hy2 : (⟨s, f, a, q, false⟩ : Block) = y := by simpa using hy
      subst hy2
      simpa using hlt

theorem sortedAddresses_perm (A : List Nat) : List.Perm (sortedAddresses A) A :=
  List.perm_insertionSort (· ≤ ·) A

theorem sortedAddresses_pairwise_lt (A : List Nat) (hnd : A.Nodup) :
    (sortedAddresses A).Pairwise (· < ·) := by
  have hsorted : (sortedAddresses A).Pairwise (· ≤ ·) :=
    List.sorted_insertionSort (· ≤ ·) A
  have hnd2 : (sortedAddresses A).Nodup :=
    ((sortedAddresses_perm A).nodup_iff).mpr hnd
  have hboth := hsorted.and hnd2
  exact hboth.imp (fun h => lt_of_le_of_ne h.1 h.2)

/-- Claim C1 counterexample: duplicate addresses do not collapse. On the input
address list [5, 5] the function succeeds but returns two overlapping
one-address blocks at the same start address, violating the claimed
non-overlap / duplicate-collapse property (which predicts the single block
[5, 1]). -/
theorem addresses_to_blocks_duplicates_not_collapsed :
    mb_addresses_to_blocks [5, 5] 1 3 10 =
      .ok [⟨1, 3, 5, 1, false⟩, ⟨1, 3, 5, 1, false⟩] ∧
    ¬ ([⟨1, 3, 5, 1, false⟩, ⟨1, 3, 5, 1, false⟩] : List Block).Pairwise
        (fun b c => b.start_address + b.quantity ≤ c.start_address) := by
  constructor
  · decide
  · intro h
    have := (List.pairwise_cons.mp h).1 _ (List.mem_cons_self _ _)
    simp at this

/-- Claim C1 (amended): for every duplicate-free address list A, every valid
function code and sufficient block capacity, mb_addresses_to_blocks succeeds
and returns a block list that is strictly ordered with at least one missing
address between consecutive blocks (hence sorted by start_address,
non-overlapping, and each block a maximal run), whose concatenated address
ranges are exactly the sorted addresses (hence their union is the set of A),
with every block carrying the requested slave and function code and a
positive quantity. -/
theorem addresses_to_blocks_decomposition (A : List Nat) (slave fc maxb : Nat)
    (hnd : A.Nodup) (hfc : mb_fc_is_valid fc = true) (hcap : A.length ≤ maxb) :
    ∃ blocks, mb_addresses_to_blocks A slave fc maxb = .ok blocks ∧
      blocks.Chain' (fun b c => b.start_address + b.quantity < c.start_address) ∧
      blocks.flatMap (fun b => List.range' b.start_address b.quantity) =
        sortedAddresses A ∧
      (∀ x, (∃ b ∈ blocks, b.start_address ≤ x ∧ x < b.start_address + b.quantity)
        ↔ x ∈ A) ∧
      (∀ b ∈ blocks, b.slave_id = slave ∧ b.function_code = fc ∧ 1 ≤ b.quantity) := by
  by_cases hA : A = []
  · subst hA
    refine ⟨[], ?_, by simp, by simp [sortedAddresses], by simp, by simp⟩
    simp [mb_addresses_to_blocks]
  · have hlenpos : 1 ≤ A.length := by
      cases A with
      | nil => exact absurd rfl hA
      | cons a l => simp
    have hslen : (sortedAddresses A).length = A.length :=
      (sortedAddresses_perm A).length_eq
    obtain ⟨a, rest, hsa⟩ : ∃ a rest, sortedAddresses A = a :: rest := by
      cases hs : sortedAddresses A with
      | nil => rw [hs] at hslen; simp at hslen; omega
      | cons a rest => exact ⟨a, rest, rfl⟩
    have hpw : (a :: rest).Pairwise (· < ·) := by
      rw [← hsa]
      exact sortedAddresses_pairwise_lt A hnd
    have hpwrest : rest.Pairwise (· < ·) := (List.pairwise_cons.mp hpw).2
    have hge : ∀ x ∈ rest, a + 1 ≤ x := by
      intro x hx
      have := (List.pairwise_cons.mp hpw).1 x hx
      omega
    have hlen : (groupRun slave fc a 1 rest).length ≤ maxb := by
      have h1 := groupRun_length slave fc rest a 1
      have h2 : (1 : Nat) + rest.length = A.length := by
        rw [← hslen, hsa]
        simp [Nat.add_comm]
      omega
    refine ⟨groupRun slave fc a 1 rest, ?_, ?_, ?_, ?_, ?_⟩
    · unfold mb_addresses_to_blocks
      rw [if_neg hA, if_neg (by simp [hfc]), hsa]
      simp only [if_pos hlen]
    · exact (groupRun_chain slave fc rest a 1 hpwrest hge).1
    · rw [groupRun_flatMap slave fc rest a 1, hsa]
      simp [List.range'_succ]
    · intro x
      constructor
      · rintro ⟨b, hb, hxb⟩
        have hmem : x ∈ (groupRun slave fc a 1 rest).flatMap
            (fun b => List.range' b.start_address b.quantity) := by
          rw [List.mem_flatMap]
          exact ⟨b, hb, List.mem_range'_1.mpr hxb⟩
        rw [groupRun_flatMap slave fc rest a 1] at hmem
        have : x ∈ a :: rest := by
          simpa [List.range'_succ] using hmem
        rw [← hsa] at this
        exact (sortedAddresses_perm A).mem_iff.mp this
      · intro hx
        have hx2 : x ∈ a :: rest := by
          rw [← hsa]
          exact (sortedAddresses_perm A).mem_iff.mpr hx
        have hmem : x ∈ (groupRun slave fc a 1 rest).flatMap
            (fun b => List.range' b.start_address b.quantity) := by
          rw [groupRun_flatMap slave fc rest a 1]
          simpa [List.range'_succ] using hx2
        rw [List.mem_flatMap] at hmem
        obtain ⟨b, hb, hxb⟩ := hmem
        exact ⟨b, hb, List.mem_range'_1.mp hxb⟩
    · exact groupRun_fields slave fc rest a 1 le_rfl

/-- Claim C1 witness: the decomposition theorem applied at the specification
example address list [100, 101, 102, 115, 116, 117]. -/
theorem addresses_to_blocks_decomposition_witness :
    ∃ blocks, mb_addresses_to_blocks [100, 101, 102, 115, 116, 117] 1 3 10 =
        .ok blocks ∧
      blocks.Chain' (fun b c => b.start_address + b.quantity < c.start_address) ∧
      blocks.flatMap (fun b => List.range' b.start_address b.quantity) =
        sortedAddresses [100, 101, 102, 115, 116, 117] ∧
      (∀ x, (∃ b ∈ blocks, b.start_address ≤ x ∧ x < b.start_address + b.quantity)
        ↔ x ∈ [100, 101, 102, 115, 116, 117]) ∧
      (∀ b ∈ blocks, b.slave_id = 1 ∧ b.function_code = 3 ∧ 1 ≤ b.quantity) :=
  addresses_to_blocks_decomposition [100, 101, 102, 115, 116, 117] 1 3 10
    (by decide) (by decide) (by decide)

theorem pdu_data_size_from_block (b : Block) :
    mb_calc_pdu_data_size ⟨b.slave_id, b.function_code, b.start_address, b.quantity,
      mb_block_calc_data_size b⟩ = mb_block_calc_data_size b := by
  unfold mb_calc_pdu_data_size mb_block_calc_data_size
  by_cases hq : b.quantity = 0
  · simp only [hq]
    split_ifs <;> simp
  · simp [hq]

theorem addBlock_preserves (b : Block) (p : Pdu) (maxc : Nat)
    (hb2 : b.quantity ≤ mb_fc_get_max_quantity b.function_code)
    (hfit : mb_block_fits_pdu b p maxc = true) :
    mb_calc_pdu_data_size (mb_add_block_to_pdu b p) ≤ maxc ∧
    (mb_add_block_to_pdu b p).quantity ≤
      mb_fc_get_max_quantity (mb_add_block_to_pdu b p).function_code := by
  by_cases hq : p.quantity = 0
  · unfold mb_block_fits_pdu at hfit
    rw [if_pos hq] at hfit
    have hsize : mb_block_calc_data_size b ≤ maxc := by simpa using hfit
    unfold mb_add_block_to_pdu
    rw [if_pos hq]
    refine ⟨?_, by simpa using hb2⟩
    rw [pdu_data_size_from_block b]
    exact hsize
  · unfold mb_block_fits_pdu at hfit
    rw [if_neg hq] at hfit
    unfold mb_add_block_to_pdu
    rw [if_neg hq]
    dsimp only at hfit ⊢
    by_cases h1 : b.slave_id ≠ p.slave_id ∨ b.function_code ≠ p.function_code
    · rw [if_pos h1] at hfit
      exact absurd hfit (by simp)
    · rw [if_neg h1] at hfit
      push_neg at h1
      obtain ⟨hslave, hfc⟩ := h1
      by_cases h2 : (max (b.start_address + b.quantity) (p.start_address + p.quantity) -
          min b.start_address p.start_address) % 2 ^ 16 >
          mb_fc_get_max_quantity b.function_code
      · rw [if_pos h2] at hfit
        exact absurd hfit (by simp)
      · rw [if_neg h2] at hfit
        constructor
        · unfold mb_calc_pdu_data_size
          dsimp only
          by_cases hmq : (max (b.start_address + b.quantity)
              (p.start_address + p.quantity) - min b.start_address p.start_address)
              % 2 ^ 16 = 0
          · rw [if_pos hmq]
            exact Nat.zero_le maxc
          · rw [if_neg hmq]
            rw [← hfc]
            by_cases hu1 : mb_fc_get_unit_size b.function_code = 1
            · rw [if_pos hu1] at hfit ⊢
              simpa using hfit
            · rw [if_neg hu1] at hfit ⊢
              by_cases hu2 : mb_fc_get_unit_size b.function_code = 2
              · rw [if_pos hu2] at hfit ⊢
                simpa using hfit
              · rw [if_neg hu2] at hfit
                exact absurd hfit (by simp)
        · dsimp only
          rw [← hfc]
          omega

theorem placeFirst_preserves (b : Block) (maxc : Nat)
    (hb2 : b.quantity ≤ mb_fc_get_max_quantity b.function_code) :
    ∀ pdus pdus2 : List Pdu,
      (∀ p ∈ pdus, mb_calc_pdu_data_size p ≤ maxc ∧
        p.quantity ≤ mb_fc_get_max_quantity p.function_code) →
      placeFirst b maxc pdus = some pdus2 →
      ∀ p ∈ pdus2, mb_calc_pdu_data_size p ≤ maxc ∧
        p.quantity ≤ mb_fc_get_max_quantity p.function_code := by
  intro pdus
  induction pdus with
  | nil =>
    intro pdus2 _ hp
    simp [placeFirst] at hp
  | cons q qs ih =>
    intro pdus2 hinv hp
    rw [placeFirst] at hp
    by_cases hfit : mb_block_fits_pdu b q maxc = true
    · rw [if_pos hfit] at hp
      have hp2 : mb_add_block_to_pdu b q :: qs = pdus2 := by
        simpa using hp
      subst hp2
      intro p hploc
      rcases List.mem_cons.mp hploc with h | h
      · subst h
        exact addBlock_preserves b q maxc hb2 hfit
      · exact hinv p (List.mem_cons_of_mem q h)
    · rw [if_neg hfit] at hp
      cases hrec : placeFirst b maxc qs with
      | none =>
        rw [hrec] at hp
        simp at hp
      | some l =>
        rw [hrec] at hp
        have hp2 : q :: l = pdus2 := by simpa using hp
        subst hp2
        intro p hploc
        rcases List.mem_cons.mp hploc with h | h
        · exact h ▸ hinv q (List.mem_cons_self q qs)
        · exact ih l (fun r hr => hinv r (List.mem_cons_of_mem q hr)) hrec p h

theorem ffdLoop_preserves (maxc maxp : Nat) :
    ∀ (blocks : List Block) (pdus out : List Pdu),
      (∀ b ∈ blocks, mb_block_calc_data_size b ≤ maxc ∧
        b.quantity ≤ mb_fc_get_max_quantity b.function_code) →
      (∀ p ∈ pdus, mb_calc_pdu_data_size p ≤ maxc ∧
        p.quantity ≤ mb_fc_get_max_quantity p.function_code) →
      ffdLoop maxc maxp blocks pdus = .ok out →
      ∀ p ∈ out, mb_calc_pdu_data_size p ≤ maxc ∧
        p.quantity ≤ mb_fc_get_max_quantity p.function_code := by
  intro blocks
  induction blocks with
  | nil =>
    intro pdus out _ hp hok
    rw [ffdLoop] at hok
    have : pdus = out := by simpa using hok
    subst this
    exact hp
  | cons b bs ih =>
    intro pdus out hb hp hok
    rw [ffdLoop] at hok
    cases hpf : placeFirst b maxc pdus with
    | some pdus2 =>
      rw [hpf] at hok
      exact ih pdus2 out (fun r hr => hb r (List.mem_cons_of_mem b hr))
        (placeFirst_preserves b maxc (hb b (List.mem_cons_self b bs)).2 pdus pdus2 hp hpf)
        hok
    | none =>
      rw [hpf] at hok
      by_cases hlen : pdus.length ≥ maxp
      · rw [if_pos hlen] at hok
        exact absurd hok (by simp)
      · rw [if_neg hlen] at hok
        apply ih (pdus ++ [mb_add_block_to_pdu b (mb_init_pdu b.slave_id b.function_code)])
          out (fun r hr => hb r (List.mem_cons_of_mem b hr)) ?_ hok
        intro p hploc
        rcases List.mem_append.mp hploc with h | h
        · exact hp p h
        · have hpeq : p = mb_add_block_to_pdu b (mb_init_pdu b.slave_id b.function_code) := by
            simpa using h
          subst hpeq
          have hbb := hb b (List.mem_cons_self b bs)
          unfold mb_add_block_to_pdu mb_init_pdu
          rw [if_pos rfl]
          refine ⟨?_, by simpa using hbb.2⟩
          rw [pdu_data_size_from_block b]
          exact hbb.1

/-- Claim C3 counterexample: with max_pdu_chars = 253 (the default PDU limit,
well above the smallest single-request data size of 2 chars) a single input
block of 200 FC03 registers is packed into one bin whose data size (400) and
quantity (200) both exceed the limits — the packer opens a fresh bin without
any limit check. -/
theorem ffd_pack_limits_violated :
    mb_ffd_pack [⟨1, 3, 0, 200, false⟩] 253 16 = .ok [⟨1, 3, 0, 200, 400⟩] ∧
    mb_block_calc_data_size ⟨1, 3, 0, 1, false⟩ ≤ 253 ∧
    ¬ (mb_calc_pdu_data_size ⟨1, 3, 0, 200, 400⟩ ≤ 253) ∧
    ¬ ((⟨1, 3, 0, 200, 400⟩ : Pdu).quantity ≤ mb_fc_get_max_quantity 3) := by
  decide

/-- Claim C3 (amended): for every input block array each of whose blocks
itself satisfies the limits (its data size is at most max_pdu_chars and its
quantity at most max_quantity of its function code), every PDU bin produced
by mb_ffd_pack satisfies both limits: bin data size (2 per register, bits
rounded up to bytes) at most max_pdu_chars and bin quantity at most
max_quantity(function_code). -/
theorem ffd_pack_limits (blocks : List Block) (max_pdu_chars max_pdus : Nat)
    (pdus : List Pdu)
    (hb : ∀ b ∈ blocks, mb_block_calc_data_size b ≤ max_pdu_chars ∧
      b.quantity ≤ mb_fc_get_max_quantity b.function_code)
    (hok : mb_ffd_pack blocks max_pdu_chars max_pdus = .ok pdus) :
    ∀ p ∈ pdus, mb_calc_pdu_data_size p ≤ max_pdu_chars ∧
      p.quantity ≤ mb_fc_get_max_quantity p.function_code := by
  unfold mb_ffd_pack at hok
  by_cases hbl : blocks = []
  · rw [if_pos hbl] at hok
    have : ([] : List Pdu) = pdus := by simpa using hok
    subst this
    intro p hp
    simp at hp
  · rw [if_neg hbl] at hok
    refine ffdLoop_preserves max_pdu_chars max_pdus (sortByQuantityDesc blocks) [] pdus
      ?_ (by simp) hok
    intro b hbmem
    exact hb b ((List.perm_insertionSort _ blocks).mem_iff.mp hbmem)

/-- Claim C3 witness: the amended packing-limits theorem applied at two
in-limit FC03 blocks and the single bin they pack into. -/
theorem ffd_pack_limits_witness :
    mb_calc_pdu_data_size ⟨1, 3, 100, 8, 16⟩ ≤ 253 ∧
    (⟨1, 3, 100, 8, 16⟩ : Pdu).quantity ≤
      mb_fc_get_max_quantity (⟨1, 3, 100, 8, 16⟩ : Pdu).function_code :=
  ffd_pack_limits [⟨1, 3, 100, 3, false⟩, ⟨1, 3, 105, 3, false⟩] 253 16
    [⟨1, 3, 100, 8, 16⟩] (by decide) (by decide) ⟨1, 3, 100, 8, 16⟩
    (List.mem_singleton.mpr rfl)

theorem crc16_verify_append (x : List Nat) :
    mb_crc16_verify (x ++ [mb_crc16 x % 2 ^ 8, mb_crc16 x / 2 ^ 8 % 2 ^ 8]) = true := by
  unfold mb_crc16_verify
  have hlen : (x ++ [mb_crc16 x % 2 ^ 8, mb_crc16 x / 2 ^ 8 % 2 ^ 8]).length =
      x.length + 2 := by simp
  rw [hlen, if_neg (by omega)]
  have htake : (x ++ [mb_crc16 x % 2 ^ 8, mb_crc16 x / 2 ^ 8 % 2 ^ 8]).take
      (x.length + 2 - 2) = x := by simp
  have hlo : (x ++ [mb_crc16 x % 2 ^ 8, mb_crc16 x / 2 ^ 8 % 2 ^ 8]).getD
      (x.length + 2 - 2) 0 = mb_crc16 x % 2 ^ 8 := by
    rw [getD_append_right_nat _ _ _ (by omega)]
    simp
  have hhi : (x ++ [mb_crc16 x % 2 ^ 8, mb_crc16 x / 2 ^ 8 % 2 ^ 8]).getD
      (x.length + 2 - 1) 0 = mb_crc16 x / 2 ^ 8 % 2 ^ 8 := by
    rw [getD_append_right_nat _ _ _ (by omega)]
    have : x.length + 2 - 1 - x.length = 1 := by omega
    rw [this]
    rfl
  rw [htake, hlo, hhi]
  simp

theorem rtu_roundtrip (slave fc : Nat) (pdu : List Nat) :
    mb_rtu_parse_frame (mb_rtu_build_frame slave fc pdu) = .ok (slave, fc, pdu) := by
  unfold mb_rtu_build_frame mb_rtu_parse_frame
  dsimp only
  have hv := crc16_verify_append (slave :: fc :: pdu)
  have hlen : (slave :: fc :: pdu ++
      [mb_crc16 (slave :: fc :: pdu) % 2 ^ 8,
       mb_crc16 (slave :: fc :: pdu) / 2 ^ 8 % 2 ^ 8]).length = pdu.length + 4 := by
    simp only [List.length_cons, List.length_append, List.length_nil]
  rw [hlen, if_neg (by omega), if_neg (not_not_intro hv)]
  simp

theorem hexVal_hexDigitCode (d : Nat) (hd : d < 16) : hexVal (hexDigitCode d) = some d := by
  unfold hexVal hexDigitCode
  by_cases h : d < 10
  · rw [if_pos h, if_pos (by omega)]
    congr 1
    omega
  · rw [if_neg h, if_neg (by omega), if_pos (by omega)]
    congr 1
    omega

theorem hexToByte_hexDigit (b : Nat) (hb : b < 256) :
    hexToByte (hexDigitCode (b / 2 ^ 4 % 2 ^ 4)) (hexDigitCode (b % 2 ^ 4)) = some b := by
  have h16 : (2 : Nat) ^ 4 = 16 := rfl
  unfold hexToByte
  rw [hexVal_hexDigitCode _ (by rw [h16]; omega), hexVal_hexDigitCode _ (by rw [h16]; omega)]
  dsimp only
  congr 1
  rw [h16]
  omega

theorem length_flatMap_hexPair (l : List Nat) :
    (l.flatMap hexPair).length = 2 * l.length := by
  induction l with
  | nil => rfl
  | cons b bs ih =>
    simp only [List.flatMap_cons, List.length_append, ih, hexPair, List.length_cons,
      List.length_nil]
    omega

theorem parseHexPairs_flatMap (l : List Nat) (h : ∀ b ∈ l, b < 256) :
    parseHexPairs (l.flatMap hexPair) = some l := by
  induction l with
  | nil => rfl
  | cons b bs ih =>
    have hb : b < 256 := h b (List.mem_cons_self b bs)
    have hbs : ∀ x ∈ bs, x < 256 := fun x hx => h x (List.mem_cons_of_mem b hx)
    rw [List.flatMap_cons]
    show parseHexPairs (hexPair b ++ bs.flatMap hexPair) = some (b :: bs)
    rw [hexPair, List.cons_append, List.cons_append, List.nil_append]
    simp only [parseHexPairs]
    rw [hexToByte_hexDigit b hb, ih hbs]

theorem ascii_roundtrip (slave fc : Nat) (pdu : List Nat) (hs : slave < 256)
    (hf : fc < 256) (hp : ∀ b ∈ pdu, b < 256) :
    mb_ascii_parse_frame (mb_ascii_build_frame slave fc pdu) = .ok (slave, fc, pdu) := by
  have hL256 : mb_lrc (slave :: fc :: pdu) < 256 := mb_lrc_lt _
  have hbodylen : (pdu.flatMap hexPair).length = 2 * pdu.length :=
    length_flatMap_hexPair pdu
  have hform : mb_ascii_build_frame slave fc pdu =
      [58, hexDigitCode (slave / 2 ^ 4 % 2 ^ 4), hexDigitCode (slave % 2 ^ 4),
       hexDigitCode (fc / 2 ^ 4 % 2 ^ 4), hexDigitCode (fc % 2 ^ 4)] ++
      (pdu.flatMap hexPair ++
       [hexDigitCode (mb_lrc (slave :: fc :: pdu) / 2 ^ 4 % 2 ^ 4),
        hexDigitCode (mb_lrc (slave :: fc :: pdu) % 2 ^ 4), 13, 10]) := by
    simp [mb_ascii_build_frame, hexPair]
  rw [hform]
  set s1 := hexDigitCode (slave / 2 ^ 4 % 2 ^ 4) with hs1
  set s2 := hexDigitCode (slave % 2 ^ 4) with hs2
  set f1 := hexDigitCode (fc / 2 ^ 4 % 2 ^ 4) with hf1
  set f2 := hexDigitCode (fc % 2 ^ 4) with hf2
  set l1 := hexDigitCode (mb_lrc (slave :: fc :: pdu) / 2 ^ 4 % 2 ^ 4) with hl1
  set l2 := hexDigitCode (mb_lrc (slave :: fc :: pdu) % 2 ^ 4) with hl2
  set body := pdu.flatMap hexPair with hbody
  set F := ([58, s1, s2, f1, f2] : List Nat) ++ (body ++ [l1, l2, 13, 10]) with hF
  have hlen5 : ([58, s1, s2, f1, f2] : List Nat).length = 5 := rfl
  have hflen : F.length = 9 + 2 * pdu.length := by
    rw [hF]
    simp only [List.length_append, List.length_cons, List.length_nil, hbodylen]
    omega
  have hg0 : F.getD 0 0 = 58 := by rw [hF]; rfl
  have hg1 : F.getD 1 0 = s1 := by rw [hF]; rfl
  have hg2 : F.getD 2 0 = s2 := by rw [hF]; rfl
  have hg3 : F.getD 3 0 = f1 := by rw [hF]; rfl
  have hg4 : F.getD 4 0 = f2 := by rw [hF]; rfl
  have hgcr : F.getD (9 + 2 * pdu.length - 2) 0 = 13 := by
    rw [hF, getD_append_right_nat _ _ _ (by rw [hlen5]; omega),
        getD_append_right_nat _ _ _ (by rw [hlen5, hbodylen]; omega)]
    have hidx : 9 + 2 * pdu.length - 2 - ([58, s1, s2, f1, f2] : List Nat).length -
        body.length = 2 := by
      rw [hlen5, hbodylen]; omega
    rw [hidx]
    rfl
  have hglf : F.getD (9 + 2 * pdu.length - 1) 0 = 10 := by
    rw [hF, getD_append_right_nat _ _ _ (by rw [hlen5]; omega),
        getD_append_right_nat _ _ _ (by rw [hlen5, hbodylen]; omega)]
    have hidx : 9 + 2 * pdu.length - 1 - ([58, s1, s2, f1, f2] : List Nat).length -
        body.length = 3 := by
      rw [hlen5, hbodylen]; omega
    rw [hidx]
    rfl
  have hgl1 : F.getD (5 + 2 * pdu.length) 0 = l1 := by
    rw [hF, getD_append_right_nat _ _ _ (by rw [hlen5]; omega),
        getD_append_right_nat _ _ _ (by rw [hlen5, hbodylen]; omega)]
    have hidx : 5 + 2 * pdu.length - ([58, s1, s2, f1, f2] : List Nat).length -
        body.length = 0 := by
      rw [hlen5, hbodylen]; omega
    rw [hidx]
    rfl
  have hgl2 : F.getD (6 + 2 * pdu.length) 0 = l2 := by
    rw [hF, getD_append_right_nat _ _ _ (by rw [hlen5]; omega),
        getD_append_right_nat _ _ _ (by rw [hlen5, hbodylen]; omega)]
    have hidx : 6 + 2 * pdu.length - ([58, s1, s2, f1, f2] : List Nat).length -
        body.length = 1 := by
      rw [hlen5, hbodylen]; omega
    rw [hidx]
    rfl
  have hdrop : List.drop 5 F = body ++ [l1, l2, 13, 10] := by rw [hF]; rfl
  unfold mb_ascii_parse_frame
  rw [hflen]
  dsimp only
  rw [if_neg (show ¬ (9 + 2 * pdu.length < 9) by omega)]
  rw [hg0, if_neg (by simp)]
  rw [hgcr, hglf, if_neg (by simp)]
  rw [hg1, hg2, hg3, hg4, hs1, hs2, hf1, hf2,
      hexToByte_hexDigit slave hs, hexToByte_hexDigit fc hf]
  dsimp only
  have hpl : (9 + 2 * pdu.length - 9) / 2 = pdu.length := by omega
  rw [hpl, hdrop, List.take_left' hbodylen, hbody, parseHexPairs_flatMap pdu hp]
  dsimp only
  rw [hgl1, hgl2, hl1, hl2, hexToByte_hexDigit _ hL256]
  dsimp only
  rw [if_pos rfl]

theorem tcp_roundtrip (tx unit_id fc : Nat) (pdu : List Nat) (ht : tx < 2 ^ 16)
    (hl : pdu.length ≤ 253) :
    mb_tcp_parse_frame (mb_tcp_build_frame tx unit_id fc pdu) =
      .ok (tx, unit_id, fc, pdu) := by
  have hlm : (1 + 1 + pdu.length) % 2 ^ 16 = 2 + pdu.length := by
    rw [Nat.mod_eq_of_lt (by omega)]
  unfold mb_tcp_build_frame mb_tcp_parse_frame
  dsimp only
  rw [hlm]
  simp only [List.cons_append, List.nil_append, List.length_cons, List.length_nil,
    List.getD_cons_zero, List.getD_cons_succ, List.drop_succ_cons, List.drop_zero]
  rw [if_neg (by omega)]
  have hproto : (0 : Nat) * 2 ^ 8 + 0 = 0 := by omega
  rw [hproto, if_neg (by omega)]
  have hlenfield : ((2 + pdu.length) / 2 ^ 8 % 2 ^ 8) * 2 ^ 8 +
      (2 + pdu.length) % 2 ^ 8 = 2 + pdu.length := by
    have h8 : (2 : Nat) ^ 8 = 256 := rfl
    rw [h8]
    omega
  rw [hlenfield, if_neg (by omega)]
  have htx : tx / 2 ^ 8 % 2 ^ 8 * 2 ^ 8 + tx % 2 ^ 8 = tx := by
    have h8 : (2 : Nat) ^ 8 = 256 := rfl
    have h16 : (2 : Nat) ^ 16 = 65536 := rfl
    rw [h8]
    rw [h16] at ht
    omega
  rw [htx]
  have hpl : 2 + pdu.length - 2 = pdu.length := by omega
  rw [hpl, List.take_length]

/-- Claim C4: for every transport variant, decoding an encoded frame recovers
the original (slave_id, function_code, pdu) — and for TCP also the original
transaction_id — for all byte-valued inputs and pdu lengths up to 253:
mb_rtu_parse_frame after mb_rtu_build_frame, mb_ascii_parse_frame after
mb_ascii_build_frame and mb_tcp_parse_frame after mb_tcp_build_frame are
identities on these fields. -/
theorem frame_codec_roundtrip (slave fc tx : Nat) (pdu : List Nat)
    (hs : slave < 2 ^ 8) (hf : fc < 2 ^ 8) (hp : ∀ b ∈ pdu, b < 2 ^ 8)
    (hlen : pdu.length ≤ 253) (ht : tx < 2 ^ 16) :
    mb_rtu_parse_frame (mb_rtu_build_frame slave fc pdu) = .ok (slave, fc, pdu) ∧
    mb_ascii_parse_frame (mb_ascii_build_frame slave fc pdu) = .ok (slave, fc, pdu) ∧
    mb_tcp_parse_frame (mb_tcp_build_frame tx slave fc pdu) =
      .ok (tx, slave, fc, pdu) :=
  ⟨rtu_roundtrip slave fc pdu, ascii_roundtrip slave fc pdu hs hf hp,
   tcp_roundtrip tx slave fc pdu ht hlen⟩

/-- Claim C4 witness: the round-trip theorem applied at the specification
scenario (slave 1, FC03, pdu 00 00 00 02, transaction id 0x1234). -/
theorem frame_codec_roundtrip_witness :
    mb_rtu_parse_frame (mb_rtu_build_frame 1 3 [0, 0, 0, 2]) =
      .ok (1, 3, [0, 0, 0, 2]) ∧
    mb_ascii_parse_frame (mb_ascii_build_frame 1 3 [0, 0, 0, 2]) =
      .ok (1, 3, [0, 0, 0, 2]) ∧
    mb_tcp_parse_frame (mb_tcp_build_frame 0x1234 1 3 [0, 0, 0, 2]) =
      .ok (0x1234, 1, 3, [0, 0, 0, 2]) :=
  frame_codec_roundtrip 1 3 0x1234 [0, 0, 0, 2] (by decide) (by decide)
    (by decide) (by decide) (by decide)

/-- Claim C5: evaluation of mb_master_read_optimized on one successful
single-plan optimized read (slave 1, FC03, one address, one valid RTU
response): the read succeeds, the parsed register is appended in plan order
and blocks_merged grows by address_count - plan_count = 0, but
total_requests ends at 2 after a single executed plan — the loop increments
the round-trip counter twice per successful plan, not once as specified. -/
theorem read_optimized_double_counts_requests :
    mb_master_read_optimized .rtu ⟨0, 0, 0, 0, 0, 0⟩ ⟨1, 3, [100]⟩ 1
      (.ok [⟨1, 3, 100, 1⟩]) [.recv (mb_rtu_build_frame 1 3 [2, 0, 42])] =
      (.ok (), ⟨2, 1, 0, 0, 8, 7⟩, [42], [[1, 3, 0, 100, 0, 1, 197, 213]]) := by
  decide

theorem execPlans_data_le (mode : MbMode) (buffer_size : Nat) :
    ∀ (plans : List Plan) (events : List TransportEv) (stats : MbStats)
      (data : List Nat) (sends : List (List Nat)),
      data.length ≤ buffer_size →
      (execPlans mode buffer_size plans events stats data sends).2.2.1.length ≤
        buffer_size := by
  intro plans
  induction plans with
  | nil =>
    intro events stats data sends hle
    simpa [execPlans] using hle
  | cons plan rest ih =>
    intro events stats data sends hle
    rw [execPlans]
    cases hbf : mb_build_frame plan.slave_id plan.function_code
        [plan.start_address / 2 ^ 8 % 2 ^ 8, plan.start_address % 2 ^ 8,
         plan.quantity / 2 ^ 8 % 2 ^ 8, plan.quantity % 2 ^ 8] mode with
    | error e =>
      simp only [hbf]
      simpa using hle
    | ok frame =>
      simp only [hbf]
      cases events with
      | nil => simpa using hle
      | cons ev evtail =>
        cases ev with
        | sendFail => simpa using hle
        | recv resp =>
          dsimp only
          by_cases hr : resp.length = 0
          · rw [if_pos hr]
            simpa using hle
          · rw [if_neg hr]
            cases hpf : mb_parse_frame resp mode with
            | error e =>
              simp only [hpf]
              simpa using hle
            | ok triple =>
              obtain ⟨rs, rfc, rpdu⟩ := triple
              simp only [hpf]
              by_cases hsl : rs ≠ plan.slave_id
              · rw [if_pos hsl]
                simpa using hle
              · rw [if_neg hsl]
                cases hpr : mb_parse_read_response rfc rpdu plan.quantity with
                | error e =>
                  simp only [hpr]
                  simpa using hle
                | ok temp =>
                  simp only [hpr]
                  apply ih
                  have htake : (temp.take (min plan.quantity
                      (buffer_size - data.length))).length ≤
                      buffer_size - data.length := by
                    rw [List.length_take]
                    omega
                  simp only [List.length_append]
                  omega

/-- Claim C9: mb_master_read_optimized never writes more than buffer_size
words into the caller buffer — the per-plan copy is clamped at buffer_size —
and when buffer_size < address_count it returns BufferTooSmall immediately,
with the statistics unchanged and no frame handed to the transport,
independently of the optimizer outcome and of the transport behaviour (the
guard runs before either is consulted). -/
theorem read_optimized_buffer_safety (mode : MbMode) (stats : MbStats)
    (request : ReadRequest) (buffer_size : Nat)
    (planResult : Except MbError (List Plan)) (events : List TransportEv) :
    (mb_master_read_optimized mode stats request buffer_size planResult
      events).2.2.1.length ≤ buffer_size ∧
    (buffer_size < request.addresses.length →
      mb_master_read_optimized mode stats request buffer_size planResult events =
        (.error .bufferTooSmall, stats, [], [])) := by
  constructor
  · unfold mb_master_read_optimized
    by_cases hbs : buffer_size < request.addresses.length
    · rw [if_pos hbs]
      simp
    · rw [if_neg hbs]
      cases planResult with
      | error e => simp
      | ok plans =>
        dsimp only
        have hrun := execPlans_data_le mode buffer_size plans events stats [] []
          (by simp)
        cases hres : execPlans mode buffer_size plans events stats [] [] with
        | mk r tail =>
          obtain ⟨st, dat, snd⟩ := tail
          rw [hres] at hrun
          cases r with
          | ok u => simpa using hrun
          | error e => simpa using hrun
  · intro hbs
    unfold mb_master_read_optimized
    rw [if_pos hbs]

/-- Claim C9 witness: the safety theorem applied at a concrete request whose
address count exceeds the buffer size, with the buffer-size hypothesis
discharged. -/
theorem read_optimized_buffer_safety_witness :
    (mb_master_read_optimized .rtu ⟨0, 0, 0, 0, 0, 0⟩ ⟨1, 3, [100, 101]⟩ 1
      (.ok [⟨1, 3, 100, 2⟩]) []).2.2.1.length ≤ 1 ∧
    1 < ([100, 101] : List Nat).length ∧
    mb_master_read_optimized .rtu ⟨0, 0, 0, 0, 0, 0⟩ ⟨1, 3, [100, 101]⟩ 1
      (.ok [⟨1, 3, 100, 2⟩]) [] =
      (.error .bufferTooSmall, ⟨0, 0, 0, 0, 0, 0⟩, [], []) :=
  ⟨(read_optimized_buffer_safety .rtu ⟨0, 0, 0, 0, 0, 0⟩ ⟨1, 3, [100, 101]⟩ 1
      (.ok [⟨1, 3, 100, 2⟩]) []).1,
   by decide,
   (read_optimized_buffer_safety .rtu ⟨0, 0, 0, 0, 0, 0⟩ ⟨1, 3, [100, 101]⟩ 1
      (.ok [⟨1, 3, 100, 2⟩]) []).2 (by decide)⟩
